import Mathlib

/-!
Shallow embedding of the MCM2026 battery simulator
(`BatteryV3.py` — `PhysicsBattery`, and `AdaptiveBMS.py` — `AdaptiveBMS`)
with proofs of the spec's claims about it.

Floating-point arithmetic is modelled over the real numbers; `np.exp`
becomes `Real.exp` and `np.clip(x, lo, hi)` becomes `max lo (min x hi)`.
-/

namespace BatterySim

noncomputable section

/-- Faraday constant, `FARADAY_CONST` in BatteryV3.py. -/
def FARADAY_CONST : ℝ := 96485.3329

/-- Universal gas constant, `GAS_CONST` in BatteryV3.py. -/
def GAS_CONST : ℝ := 8.31446

/-! Electrical, kinetic, aging and thermal parameters hard-coded in
`PhysicsBattery.__init__`.  Only `R_base` and `design_capacity_ah` vary
per instance (they live in the `Battery` state below). -/

def E0 : ℝ := 3.95445374
def K : ℝ := 0.11498637
def A_vol : ℝ := 0.60987048
def B_vol : ℝ := 3.18761375
def c : ℝ := 0.65
def k_diff_ref : ℝ := 0.05
def Ea_diff : ℝ := 20000.0
def M_sei : ℝ := 0.162
def rho_sei : ℝ := 1690.0
def kappa_sei : ℝ := 5e-6
def D_sol_ref : ℝ := 2.5e-22
def Ea_sol : ℝ := 50000.0
def C_sol_bulk : ℝ := 4500.0
def A_surf : ℝ := 0.15
def mass : ℝ := 0.045
def Cp : ℝ := 1100.0
def h_conv : ℝ := 5.0
def A_cool : ℝ := 0.008
def T_ref : ℝ := 298.15

/-- `np.clip(x, lo, hi)`. -/
def clip (x lo hi : ℝ) : ℝ := max lo (min x hi)

/-- One row of `PhysicsBattery.history` (the parallel lists of the dict,
kept most-recent-first). -/
structure TickRecord where
  time : ℝ
  voltage : ℝ
  current : ℝ
  temp : ℝ
  soc : ℝ
  soh : ℝ
  sei_thickness : ℝ
  heat_rev : ℝ
  heat_irr : ℝ

/-- Mutable state of a `PhysicsBattery` instance: the per-instance
constant `design_capacity_ah`, the adaptively learned `R_base`, the two
KiBaM tanks `y1`/`y2`, temperature, SEI state and the history log. -/
structure Battery where
  design_capacity_ah : ℝ
  R_base : ℝ
  y1 : ℝ
  y2 : ℝ
  temp_k : ℝ
  L_sei : ℝ
  q_loss_acc : ℝ
  R_sei : ℝ
  history : List TickRecord

/-- `self.capacity_design_c = design_capacity_ah * 3600.0`. -/
def capacity_design_c (b : Battery) : ℝ := b.design_capacity_ah * 3600.0

/-- `capacity_actual_c = max(self.capacity_design_c - self.q_loss_acc, 1.0)`
computed at the top of `step`. -/
def capacityActual (b : Battery) : ℝ := max (capacity_design_c b - b.q_loss_acc) 1.0

/-- `PhysicsBattery._get_arrhenius_factor`. -/
def arrheniusFactor (temp_k Ea : ℝ) : ℝ :=
  Real.exp ((Ea / GAS_CONST) * (1.0 / T_ref - 1.0 / temp_k))

/-- `PhysicsBattery._get_entropic_coefficient`. -/
def entropicCoefficient (soc : ℝ) : ℝ :=
  clip (-0.0004 + 0.0040 * soc - 0.0150 * soc ^ 2 +
        0.0250 * soc ^ 3 - 0.0180 * soc ^ 4 + 0.0044 * soc ^ 5)
    (-0.05) 0.05

/-- The un-clamped tank update of one KiBaM sub-step (lines 136-147 of
BatteryV3.py): diffusion current from the fill-height difference, then
explicit-Euler update of both tanks. -/
def kibamRaw (cap temp_k current dt_sub : ℝ) (p : ℝ × ℝ) : ℝ × ℝ :=
  let k_diff := k_diff_ref * arrheniusFactor temp_k Ea_diff
  let h1 := p.1 / (c * cap + 1e-9)
  let h2 := p.2 / ((1 - c) * cap + 1e-9)
  let i_diff := k_diff * (h2 - h1) * cap
  (p.1 - (current - i_diff) * dt_sub, p.2 - i_diff * dt_sub)

/-- One full KiBaM sub-step (lines 136-156): raw update followed by the
ceiling clamp (proportional rescale) and the depletion floor (zero both
tanks). -/
def kibamSubstep (cap temp_k current dt_sub : ℝ) (p : ℝ × ℝ) : ℝ × ℝ :=
  let r := kibamRaw cap temp_k current dt_sub p
  let q := r.1 + r.2
  if cap < q then (r.1 * (cap / q), r.2 * (cap / q))
  else if q < 0 then (0, 0)
  else r

/-- `D_sol_curr = self.D_sol_ref * self._get_arrhenius_factor(self.Ea_sol)`. -/
def D_sol_curr (b : Battery) : ℝ := D_sol_ref * arrheniusFactor b.temp_k Ea_sol

/-- `j_side` of step line 163. -/
def j_side (b : Battery) : ℝ :=
  FARADAY_CONST * D_sol_curr b * C_sol_bulk / max b.L_sei 1e-12

/-- `dL_dt` of step line 164. -/
def dL_dt (b : Battery) : ℝ := j_side b * M_sei / (rho_sei * FARADAY_CONST)

/-- SEI thickness after one step (line 165). -/
def L_sei_next (b : Battery) (dt : ℝ) : ℝ :=
  b.L_sei + clip (dL_dt b) 0 1e-10 * dt

/-- Cumulative charge loss after one step (lines 167-168). -/
def q_loss_next (b : Battery) (dt : ℝ) : ℝ :=
  b.q_loss_acc + j_side b * A_surf * dt

/-- SEI resistance after one step (line 169). -/
def R_sei_next (b : Battery) (dt : ℝ) : ℝ :=
  L_sei_next b dt / (kappa_sei * A_surf)

/-- `r_temp_factor = np.exp(1000 * (1.0/self.temp_k - 1.0/self.T_ref))`. -/
def r_temp_factor (temp_k : ℝ) : ℝ :=
  Real.exp (1000 * (1.0 / temp_k - 1.0 / T_ref))

/-- Shepherd OCV of step lines 185-190, as a function of design capacity
(Ah) and discharged charge (Ah). -/
def ocvOf (design_ah q_discharged_ah : ℝ) : ℝ :=
  E0 - K * (design_ah / max 1e-4 (design_ah - q_discharged_ah)) +
    A_vol * Real.exp (-B_vol * q_discharged_ah)

/-- Result of `PhysicsBattery.step`: the new state and the returned
`(volt_term, soc)` pair. -/
structure StepOut where
  batt : Battery
  volt : ℝ
  soc : ℝ

/-- `PhysicsBattery.step(current_a, dt, temp_env_c)` (BatteryV3.py lines
126-213): ten KiBaM sub-steps, SEI aging, thermal update, Shepherd
terminal voltage with the 0.1 V floor, and the history append. -/
def step (b : Battery) (current_a dt temp_env_c : ℝ) : StepOut :=
  let cap := capacityActual b
  let dt_sub := dt / 10
  let p := (kibamSubstep cap b.temp_k current_a dt_sub)^[10] (b.y1, b.y2)
  let soc := (p.1 + p.2) / (cap + 1e-9)
  let Lsei' := L_sei_next b dt
  let qloss' := q_loss_next b dt
  let Rsei' := R_sei_next b dt
  let r_total := b.R_base * r_temp_factor b.temp_k + Rsei'
  let q_irr := current_a ^ 2 * r_total
  let q_rev := current_a * b.temp_k * entropicCoefficient soc
  let q_gen := q_irr + q_rev
  let q_diss := h_conv * A_cool * (b.temp_k - (temp_env_c + 273.15))
  let temp' := b.temp_k + (q_gen - q_diss) / (mass * Cp) * dt
  let q_discharged_ah := b.design_capacity_ah - (p.1 + p.2) / 3600.0
  let ocv := ocvOf b.design_capacity_ah q_discharged_ah
  let volt0 := ocv - current_a * r_total
  let volt := if volt0 < 0.1 then 0.1 else volt0
  let t := match b.history with
    | [] => 0
    | r :: _ => r.time + dt
  { batt := { b with
      y1 := p.1, y2 := p.2, temp_k := temp',
      L_sei := Lsei', q_loss_acc := qloss', R_sei := Rsei',
      history := { time := t, voltage := volt, current := current_a,
                   temp := temp' - 273.15, soc := soc,
                   soh := cap / capacity_design_c b,
                   sei_thickness := Lsei', heat_rev := q_rev,
                   heat_irr := q_irr } :: b.history },
    volt := volt, soc := soc }

/-- The model voltage used inside `calibrate_state`'s `voltage_error`
closure (BatteryV3.py lines 101-111), as a function of the trial SOC. -/
def estVoltage (b : Battery) (current_a s : ℝ) : ℝ :=
  let t := clip s 0.01 0.99
  let capA := capacity_design_c b - b.q_loss_acc
  let q_d := capA * (1 - t) / 3600.0
  let term_pol := K * (b.design_capacity_ah / max 1e-3 (b.design_capacity_ah - q_d))
  let term_exp := A_vol * Real.exp (-B_vol * q_d)
  let ocv := E0 - term_pol + term_exp
  let r_total := b.R_base * r_temp_factor b.temp_k + b.R_sei
  ocv - current_a * r_total

/-- The `voltage_error` closure passed to `brentq`. -/
def voltage_error (b : Battery) (current_a target s : ℝ) : ℝ :=
  estVoltage b current_a s - target

open Classical in
/-- Models `scipy.optimize.brentq(f, a, b)` idealized: it raises
`ValueError` (here `none`) exactly when `f a * f b > 0` (no sign change
over the bracket), and otherwise converges to a root in `[a, b]`
(here modelled as an exact root). -/
def brentqModel (f : ℝ → ℝ) (a b : ℝ) : Option ℝ :=
  if 0 < f a * f b then none
  else if h : ∃ x ∈ Set.Icc a b, f x = 0 then some h.choose
  else none

/-- Voltage branch of `PhysicsBattery.calibrate_state` (lines 98-121):
root-find the trial SOC matching the observed voltage and rescale both
tanks to it; on a `ValueError` from `brentq` the state is left
unchanged (the `except` arm only prints). -/
def calibrate_voltage (b : Battery) (observed_v current_a : ℝ) : Battery :=
  match brentqModel (voltage_error b current_a observed_v) 0.01 0.99 with
  | none => b
  | some s =>
    let capA := capacity_design_c b - b.q_loss_acc
    let nq := capA * s
    { b with y1 := nq * c, y2 := nq * (1 - c) }

/-- SOC branch of `PhysicsBattery.calibrate_state` (lines 90-96). -/
def calibrate_soc (b : Battery) (observed : ℝ) : Battery :=
  let real_soc := clip observed 0.0 1.0
  let capA := capacity_design_c b - b.q_loss_acc
  let nq := capA * real_soc
  { b with y1 := nq * c, y2 := nq * (1 - c) }

/-- `PhysicsBattery.__init__(design_capacity_ah, initial_soc, initial_temp_c)`. -/
def PhysicsBattery_mk (design_capacity_ah initial_soc initial_temp_c : ℝ) : Battery :=
  let q_total := design_capacity_ah * 3600.0 * initial_soc
  { design_capacity_ah := design_capacity_ah,
    R_base := 0.20222941,
    y1 := q_total * c,
    y2 := q_total * (1 - c),
    temp_k := initial_temp_c + 273.15,
    L_sei := 5e-9,
    q_loss_acc := 0.0,
    R_sei := 0.0,
    history := [] }

/-- The default `PhysicsBattery()` instance. -/
def defaultBattery : Battery := PhysicsBattery_mk 2.02706564 0.94314107 25.0

/-- State of an `AdaptiveBMS` instance: the owned battery, the two
gains, and the two series of `self.logs`
(`'r_history'` and `'soc_correction'`). -/
structure BMS where
  battery : Battery
  lr_r : ℝ
  gain_soc : ℝ
  r_history : List ℝ
  soc_correction : List ℝ

/-- `AdaptiveBMS.__init__(battery_model, learning_rate_R, feedback_gain_soc)`. -/
def AdaptiveBMS_mk (b : Battery) (learning_rate_R feedback_gain_soc : ℝ) : BMS :=
  { battery := b, lr_r := learning_rate_R, gain_soc := feedback_gain_soc,
    r_history := [], soc_correction := [] }

/-- `AdaptiveBMS.update(current, dt, temp_env_c, v_meas)`
(AdaptiveBMS.py lines 20-72): step the battery, then Rule A
(soft SOC nudging, gated on `|current| > 0.1`) and Rule B
(online resistance learning, gated on `current > 0.5`);
returns `(v_est, soc_est)`. -/
def update (s : BMS) (current dt temp_env_c v_meas : ℝ) : BMS × ℝ × ℝ :=
  let out := step s.battery current dt temp_env_c
  let v_est := out.volt
  let soc_est := out.soc
  let b1 := out.batt
  let verr := v_meas - v_est
  let b2 :=
    if 0.1 < |current| then
      let soc_corr := s.gain_soc * verr * dt
      let total_old := b1.y1 + b1.y2
      let total_new := total_old + soc_corr * capacity_design_c b1
      let total_clamped := max 0 (min total_new (capacity_design_c b1))
      if 0 < total_old then
        let ratio := total_clamped / total_old
        { b1 with y1 := b1.y1 * ratio, y2 := b1.y2 * ratio }
      else b1
    else b1
  let b3 :=
    if 0.5 < current then
      let r_upd := -s.lr_r * verr * |current|
      { b2 with R_base := max 0.01 (min (b2.R_base + r_upd) 2.0) }
    else b2
  ({ s with battery := b3 }, v_est, soc_est)

end

end BatterySim

namespace BatterySim

/-! ### Basic clamp lemmas -/

lemma clip_ge_lo (x lo hi : ℝ) : lo ≤ clip x lo hi := le_max_left _ _

lemma clip_le_hi (x lo hi : ℝ) (h : lo ≤ hi) : clip x lo hi ≤ hi :=
  max_le h (min_le_right _ _)

lemma abs_entropic_le (soc : ℝ) : |entropicCoefficient soc| ≤ 0.05 := by
  unfold entropicCoefficient
  exact abs_le.mpr ⟨clip_ge_lo _ _ _, clip_le_hi _ _ _ (by norm_num)⟩

/-! ### KiBaM sub-step lemmas -/

lemma kibamRaw_sum (cap tk current ds : ℝ) (p : ℝ × ℝ) :
    (kibamRaw cap tk current ds p).1 + (kibamRaw cap tk current ds p).2 =
      p.1 + p.2 - current * ds := by
  simp only [kibamRaw]
  ring

lemma kibamSubstep_sum_mem (cap tk current ds : ℝ) (p : ℝ × ℝ) (hcap : 0 < cap) :
    0 ≤ (kibamSubstep cap tk current ds p).1 + (kibamSubstep cap tk current ds p).2 ∧
    (kibamSubstep cap tk current ds p).1 + (kibamSubstep cap tk current ds p).2 ≤ cap := by
  simp only [kibamSubstep]
  split_ifs with h1 h2
  · have hq : (kibamRaw cap tk current ds p).1 + (kibamRaw cap tk current ds p).2 ≠ 0 :=
      ne_of_gt (lt_trans hcap h1)
    have hsum : (kibamRaw cap tk current ds p).1 *
        (cap / ((kibamRaw cap tk current ds p).1 + (kibamRaw cap tk current ds p).2)) +
        (kibamRaw cap tk current ds p).2 *
        (cap / ((kibamRaw cap tk current ds p).1 + (kibamRaw cap tk current ds p).2)) = cap := by
      field_simp
      ring
    rw [hsum]
    exact ⟨hcap.le, le_refl _⟩
  · norm_num [hcap.le]
  · push_neg at h1 h2
    exact ⟨h2, h1⟩

lemma kibam_iterate_sum_mem (cap tk current ds : ℝ) (p : ℝ × ℝ) (hcap : 0 < cap)
    (n : ℕ) (hn : n ≠ 0) :
    0 ≤ ((kibamSubstep cap tk current ds)^[n] p).1 +
        ((kibamSubstep cap tk current ds)^[n] p).2 ∧
    ((kibamSubstep cap tk current ds)^[n] p).1 +
        ((kibamSubstep cap tk current ds)^[n] p).2 ≤ cap := by
  obtain ⟨m, rfl⟩ := Nat.exists_eq_succ_of_ne_zero hn
  rw [Function.iterate_succ_apply']
  exact kibamSubstep_sum_mem cap tk current ds _ hcap

lemma capacityActual_pos (b : Battery) : 0 < capacityActual b := by
  unfold capacityActual
  have h : (0:ℝ) < 1.0 := by norm_num
  exact lt_of_lt_of_le h (le_max_right _ _)

/-- C1: the SOC returned by `step` always lies in `[0, 1]` (hence in
`[-ε, 1+ε]` for every `ε ≥ 0`): sustained charging never pushes it above
1, sustained discharging never below 0, and when the depletion floor
fires both tanks are zeroed together. -/
theorem step_soc_in_unit_interval (b : Battery) (current_a dt temp_env_c : ℝ)
    (hdt : 0 < dt) :
    0 ≤ (step b current_a dt temp_env_c).soc ∧
    (step b current_a dt temp_env_c).soc ≤ 1 ∧
    ∀ cap tk current ds p, 0 ≤ cap →
      (kibamRaw cap tk current ds p).1 + (kibamRaw cap tk current ds p).2 < 0 →
      kibamSubstep cap tk current ds p = (0, 0) := by
  have hcap := capacityActual_pos b
  obtain ⟨h0, h1⟩ := kibam_iterate_sum_mem (capacityActual b) b.temp_k current_a
    (dt / 10) (b.y1, b.y2) hcap 10 (by norm_num)
  have hden : (0:ℝ) < capacityActual b + 1e-9 := by
    have : (0:ℝ) < 1e-9 := by norm_num
    linarith
  refine ⟨?_, ?_, ?_⟩
  · simp only [step]
    exact div_nonneg h0 hden.le
  · simp only [step]
    rw [div_le_one hden]
    have : (0:ℝ) < 1e-9 := by norm_num
    linarith
  · intro cap tk current ds p hc hneg
    simp only [kibamSubstep]
    rw [if_neg (not_lt.mpr (le_trans hneg.le hc)), if_pos hneg]

/-- Concrete instance of `step_soc_in_unit_interval`. -/
theorem step_soc_in_unit_interval_witness :
    (0:ℝ) < 1 ∧
    (0 ≤ (step defaultBattery 1 1 25).soc ∧
     (step defaultBattery 1 1 25).soc ≤ 1 ∧
     ∀ cap tk current ds p, 0 ≤ cap →
       (kibamRaw cap tk current ds p).1 + (kibamRaw cap tk current ds p).2 < 0 →
       kibamSubstep cap tk current ds p = (0, 0)) :=
  ⟨by norm_num, step_soc_in_unit_interval defaultBattery 1 1 25 (by norm_num)⟩

/-! ### SEI aging lemmas -/

lemma j_side_pos (b : Battery) : 0 < j_side b := by
  have hden : (0:ℝ) < max b.L_sei 1e-12 :=
    lt_of_lt_of_le (by norm_num) (le_max_right _ _)
  have hexp := Real.exp_pos ((Ea_sol / GAS_CONST) * (1.0 / T_ref - 1.0 / b.temp_k))
  have hnum : 0 < FARADAY_CONST * D_sol_curr b * C_sol_bulk := by
    unfold FARADAY_CONST D_sol_curr D_sol_ref C_sol_bulk arrheniusFactor
    positivity
  exact div_pos hnum hden

/-- C3: neither the SEI thickness `L_sei` nor the cumulative charge loss
`q_loss_acc` ever decreases across a call to `step`, for any current,
ambient temperature and positive `dt`; hence both are non-decreasing
along any sequence of ticks. -/
theorem step_aging_monotone (b : Battery) (current_a dt temp_env_c : ℝ)
    (hdt : 0 < dt) :
    b.L_sei ≤ (step b current_a dt temp_env_c).batt.L_sei ∧
    b.q_loss_acc ≤ (step b current_a dt temp_env_c).batt.q_loss_acc := by
  constructor
  · show b.L_sei ≤ L_sei_next b dt
    unfold L_sei_next
    have : 0 ≤ clip (dL_dt b) 0 1e-10 * dt :=
      mul_nonneg (clip_ge_lo _ _ _) hdt.le
    linarith
  · show b.q_loss_acc ≤ q_loss_next b dt
    unfold q_loss_next
    have hA : (0:ℝ) < A_surf := by unfold A_surf; norm_num
    have : 0 ≤ j_side b * A_surf * dt :=
      mul_nonneg (mul_nonneg (j_side_pos b).le hA.le) hdt.le
    linarith

/-- Concrete instance of `step_aging_monotone`. -/
theorem step_aging_monotone_witness :
    (0:ℝ) < 1 ∧
    (defaultBattery.L_sei ≤ (step defaultBattery 2 1 25).batt.L_sei ∧
     defaultBattery.q_loss_acc ≤ (step defaultBattery 2 1 25).batt.q_loss_acc) :=
  ⟨by norm_num, step_aging_monotone defaultBattery 2 1 25 (by norm_num)⟩

/-- C4: the terminal voltage returned by `step` is always at least
0.1 V — the final floor makes it impossible for the returned voltage to
be negative or pass through zero. -/
theorem step_volt_floor (b : Battery) (current_a dt temp_env_c : ℝ) :
    0.1 ≤ (step b current_a dt temp_env_c).volt := by
  simp only [step]
  split_ifs with h
  · norm_num
  · exact not_lt.mp h

end BatterySim

namespace BatterySim

/-! ### Adaptive resistance learning (Rule B) -/

lemma step_R_base_eq (b : Battery) (current_a dt temp_env_c : ℝ) :
    (step b current_a dt temp_env_c).batt.R_base = b.R_base := rfl

lemma update_R_base_mem (s : BMS) (current dt temp_env_c v_meas : ℝ)
    (h1 : 0.01 ≤ s.battery.R_base) (h2 : s.battery.R_base ≤ 2.0) :
    0.01 ≤ (update s current dt temp_env_c v_meas).1.battery.R_base ∧
    (update s current dt temp_env_c v_meas).1.battery.R_base ≤ 2.0 := by
  simp only [update]
  split_ifs <;>
    first
      | exact ⟨le_max_left _ _, max_le (by norm_num) (min_le_right _ _)⟩
      | exact ⟨h1, h2⟩

/-- One adaptive tick of the fold used in `adaptive_R_base_bounded`. -/
noncomputable def updateFold (s : BMS) (q : ℝ × ℝ × ℝ × ℝ) : BMS :=
  (update s q.1 q.2.1 q.2.2.1 q.2.2.2).1

/-- C2: after any number of adaptive-correction ticks (`AdaptiveBMS.update`
with arbitrary currents, time steps, ambient temperatures and measured
voltages), the learned base resistance stays in `[0.01, 2.0]`, given it
starts in that range. -/
theorem adaptive_R_base_bounded (inputs : List (ℝ × ℝ × ℝ × ℝ)) (s : BMS)
    (h1 : 0.01 ≤ s.battery.R_base) (h2 : s.battery.R_base ≤ 2.0) :
    0.01 ≤ (inputs.foldl updateFold s).battery.R_base ∧
    (inputs.foldl updateFold s).battery.R_base ≤ 2.0 := by
  induction inputs generalizing s with
  | nil => exact ⟨h1, h2⟩
  | cons q rest ih =>
    simp only [List.foldl_cons]
    obtain ⟨g1, g2⟩ := update_R_base_mem s q.1 q.2.1 q.2.2.1 q.2.2.2 h1 h2
    exact ih (updateFold s q) g1 g2

/-- Concrete instance of `adaptive_R_base_bounded`: two ticks starting
from the default battery and the default gains. -/
theorem adaptive_R_base_bounded_witness :
    (0.01 ≤ (AdaptiveBMS_mk defaultBattery 5e-5 0.005).battery.R_base ∧
     (AdaptiveBMS_mk defaultBattery 5e-5 0.005).battery.R_base ≤ 2.0) ∧
    (0.01 ≤ (([(1, 1, 25, 3.5), (2, 1, 25, 3.6)] : List (ℝ × ℝ × ℝ × ℝ)).foldl
        updateFold (AdaptiveBMS_mk defaultBattery 5e-5 0.005)).battery.R_base ∧
     (([(1, 1, 25, 3.5), (2, 1, 25, 3.6)] : List (ℝ × ℝ × ℝ × ℝ)).foldl
        updateFold (AdaptiveBMS_mk defaultBattery 5e-5 0.005)).battery.R_base ≤ 2.0) := by
  have hR : (AdaptiveBMS_mk defaultBattery 5e-5 0.005).battery.R_base = 0.20222941 := rfl
  have h1 : 0.01 ≤ (AdaptiveBMS_mk defaultBattery 5e-5 0.005).battery.R_base := by
    rw [hR]; norm_num
  have h2 : (AdaptiveBMS_mk defaultBattery 5e-5 0.005).battery.R_base ≤ 2.0 := by
    rw [hR]; norm_num
  exact ⟨⟨h1, h2⟩, adaptive_R_base_bounded _ _ h1 h2⟩

end BatterySim

namespace BatterySim

/-! ### Clamp-free evolution of the total KiBaM charge -/

lemma kibamSubstep_sum_of_in_range (cap tk current ds : ℝ) (p : ℝ × ℝ)
    (hlo : 0 ≤ p.1 + p.2 - current * ds) (hhi : p.1 + p.2 - current * ds ≤ cap) :
    (kibamSubstep cap tk current ds p).1 + (kibamSubstep cap tk current ds p).2 =
      p.1 + p.2 - current * ds := by
  simp only [kibamSubstep]
  have hr := kibamRaw_sum cap tk current ds p
  split_ifs with h1 h2
  · exfalso; rw [hr] at h1; linarith
  · exfalso; rw [hr] at h2; linarith
  · exact hr

/-- With a non-negative discharge `current * ds` per sub-step, as long as
the total charge stays in `[0, cap]` no clamp fires and the total after
`n` sub-steps is exactly the initial total minus `current * ds * n`. -/
lemma kibam_iterate_sum_of_discharge (cap tk current ds : ℝ) (p : ℝ × ℝ)
    (hIds : 0 ≤ current * ds) (hhi : p.1 + p.2 ≤ cap) (n : ℕ)
    (hlo : 0 ≤ p.1 + p.2 - current * ds * n) :
    ((kibamSubstep cap tk current ds)^[n] p).1 +
      ((kibamSubstep cap tk current ds)^[n] p).2 =
      p.1 + p.2 - current * ds * n := by
  induction n with
  | zero => simp
  | succ m ih =>
    have hcast : ((m + 1 : ℕ) : ℝ) = (m : ℝ) + 1 := by push_cast; ring
    rw [hcast] at hlo
    have hm : 0 ≤ p.1 + p.2 - current * ds * m := by nlinarith
    have hsum := ih hm
    rw [Function.iterate_succ_apply', kibamSubstep_sum_of_in_range cap tk current ds _
      (by rw [hsum]; nlinarith) (by rw [hsum]; nlinarith), hsum, hcast]
    ring

/-! ### The adaptive layer's bookkeeping -/

/-- An `AdaptiveBMS` wrapped around the default battery with the default
constructor gains `learning_rate_R = 5e-5`, `feedback_gain_soc = 0.005`. -/
noncomputable def bmsDefault : BMS := AdaptiveBMS_mk defaultBattery 5e-5 0.005

/-- C9 counterexample: after one call to `update`, both series of
`AdaptiveBMS.logs` still have length 0, not 1 — `update` never appends
to the log. -/
theorem adaptive_log_cex :
    ((update bmsDefault 1 1 25 3.5).1.r_history.length = 0 ∧
     (update bmsDefault 1 1 25 3.5).1.soc_correction.length = 0) ∧
    ¬((update bmsDefault 1 1 25 3.5).1.r_history.length = 1 ∧
      (update bmsDefault 1 1 25 3.5).1.soc_correction.length = 1) := by
  refine ⟨⟨rfl, rfl⟩, ?_⟩
  intro h
  have h0 : (update bmsDefault 1 1 25 3.5).1.r_history.length = 0 := rfl
  rw [h0] at h
  exact absurd h.1 (by norm_num)

/-- C9 amended: `AdaptiveBMS.__init__` creates the two log series
`r_history` and `soc_correction`, but `update` never appends to either;
after any number of ticks both series are exactly as they started. -/
theorem adaptive_log_never_appended (s : BMS) (current dt temp_env_c v_meas : ℝ) :
    (update s current dt temp_env_c v_meas).1.r_history = s.r_history ∧
    (update s current dt temp_env_c v_meas).1.soc_correction = s.soc_correction :=
  ⟨rfl, rfl⟩

/-- C8 amended: `AdaptiveBMS.update` contains no full-charge
recalibration hook.  Whatever the measured voltage (in particular above
4.15 V), whenever `|current| ≤ 0.1` the tank levels and `R_base` after
`update` are exactly those produced by the underlying `step` call, and
the returned value is just `(v_est, soc_est)` — no blending toward full
design capacity and no boolean. -/
theorem no_full_charge_recalibration (s : BMS) (current dt temp_env_c v_meas : ℝ)
    (hI : |current| ≤ 0.1) :
    (update s current dt temp_env_c v_meas).1.battery.y1 =
      (step s.battery current dt temp_env_c).batt.y1 ∧
    (update s current dt temp_env_c v_meas).1.battery.y2 =
      (step s.battery current dt temp_env_c).batt.y2 ∧
    (update s current dt temp_env_c v_meas).1.battery.R_base = s.battery.R_base ∧
    (update s current dt temp_env_c v_meas).2 =
      ((step s.battery current dt temp_env_c).volt,
       (step s.battery current dt temp_env_c).soc) := by
  have hA : ¬(0.1 < |current|) := not_lt.mpr hI
  have hB : ¬(0.5 < current) := by
    have := le_abs_self current
    push_neg
    linarith
  simp only [update, if_neg hA, if_neg hB]
  exact ⟨trivial, trivial, step_R_base_eq _ _ _ _, trivial⟩

/-- Concrete instance of `no_full_charge_recalibration` at zero current
and a measured voltage of 4.3 V, above the 4.15 V near-full threshold. -/
theorem no_full_charge_recalibration_witness :
    |(0:ℝ)| ≤ 0.1 ∧
    ((update bmsDefault 0 1 25 4.3).1.battery.y1 =
       (step bmsDefault.battery 0 1 25).batt.y1 ∧
     (update bmsDefault 0 1 25 4.3).1.battery.y2 =
       (step bmsDefault.battery 0 1 25).batt.y2 ∧
     (update bmsDefault 0 1 25 4.3).1.battery.R_base = bmsDefault.battery.R_base ∧
     (update bmsDefault 0 1 25 4.3).2 =
       ((step bmsDefault.battery 0 1 25).volt,
        (step bmsDefault.battery 0 1 25).soc)) :=
  ⟨by norm_num, no_full_charge_recalibration bmsDefault 0 1 25 4.3 (by norm_num)⟩

end BatterySim

namespace BatterySim

lemma bmsDefault_charge_sum :
    bmsDefault.battery.y1 + bmsDefault.battery.y2 =
      2.02706564 * 3600.0 * 0.94314107 := by
  simp only [bmsDefault, AdaptiveBMS_mk, defaultBattery, PhysicsBattery_mk]
  unfold c
  ring

lemma step_bmsDefault_zero_current_sum :
    (step bmsDefault.battery 0 1 25).batt.y1 +
      (step bmsDefault.battery 0 1 25).batt.y2 =
      bmsDefault.battery.y1 + bmsDefault.battery.y2 := by
  have hhi : bmsDefault.battery.y1 + bmsDefault.battery.y2 ≤
      capacityActual bmsDefault.battery := by
    rw [bmsDefault_charge_sum]
    refine le_trans ?_ (le_max_left _ _)
    have hq : bmsDefault.battery.q_loss_acc = 0 := by
      norm_num [bmsDefault, AdaptiveBMS_mk, defaultBattery, PhysicsBattery_mk]
    have hd : bmsDefault.battery.design_capacity_ah = 2.02706564 := by
      norm_num [bmsDefault, AdaptiveBMS_mk, defaultBattery, PhysicsBattery_mk]
    unfold capacity_design_c
    rw [hq, hd]
    norm_num
  have hp1 : ((bmsDefault.battery.y1, bmsDefault.battery.y2) : ℝ × ℝ).1 = bmsDefault.battery.y1 := rfl
  have hp2 : ((bmsDefault.battery.y1, bmsDefault.battery.y2) : ℝ × ℝ).2 = bmsDefault.battery.y2 := rfl
  have h := kibam_iterate_sum_of_discharge (capacityActual bmsDefault.battery)
    bmsDefault.battery.temp_k 0 (1 / 10)
    (bmsDefault.battery.y1, bmsDefault.battery.y2)
    (by norm_num) (by rw [hp1, hp2]; exact hhi) 10
    (by rw [hp1, hp2]; rw [bmsDefault_charge_sum]; norm_num)
  rw [hp1, hp2] at h
  have e1 : (step bmsDefault.battery 0 1 25).batt.y1 =
      ((kibamSubstep (capacityActual bmsDefault.battery)
        bmsDefault.battery.temp_k 0 (1 / 10))^[10]
        (bmsDefault.battery.y1, bmsDefault.battery.y2)).1 := rfl
  have e2 : (step bmsDefault.battery 0 1 25).batt.y2 =
      ((kibamSubstep (capacityActual bmsDefault.battery)
        bmsDefault.battery.temp_k 0 (1 / 10))^[10]
        (bmsDefault.battery.y1, bmsDefault.battery.y2)).2 := rfl
  rw [e1, e2, h]
  norm_num

/-- C8 counterexample: at zero current, unit time step and a measured
voltage of 4.3 V — above the claimed 4.15 V near-full threshold — the
total charge after `update` is exactly what it was before, not the
claimed 50/50 blend toward full design capacity (and the blend value is
different from the unchanged total). -/
theorem full_charge_recalibration_cex :
    ((4.15:ℝ) < 4.3) ∧
    ((update bmsDefault 0 1 25 4.3).1.battery.y1 +
       (update bmsDefault 0 1 25 4.3).1.battery.y2 =
       bmsDefault.battery.y1 + bmsDefault.battery.y2) ∧
    bmsDefault.battery.y1 + bmsDefault.battery.y2 ≠
      0.5 * (bmsDefault.battery.y1 + bmsDefault.battery.y2) +
        0.5 * capacity_design_c bmsDefault.battery := by
  have hA : ¬((0.1:ℝ) < |(0:ℝ)|) := by norm_num
  have hB : ¬((0.5:ℝ) < (0:ℝ)) := by norm_num
  refine ⟨by norm_num, ?_, ?_⟩
  · have h1 : (update bmsDefault 0 1 25 4.3).1.battery.y1 =
        (step bmsDefault.battery 0 1 25).batt.y1 := by
      simp only [update, if_neg hA, if_neg hB]
    have h2 : (update bmsDefault 0 1 25 4.3).1.battery.y2 =
        (step bmsDefault.battery 0 1 25).batt.y2 := by
      simp only [update, if_neg hA, if_neg hB]
    rw [h1, h2, step_bmsDefault_zero_current_sum]
  · rw [bmsDefault_charge_sum]
    have hd : bmsDefault.battery.design_capacity_ah = 2.02706564 := by
      norm_num [bmsDefault, AdaptiveBMS_mk, defaultBattery, PhysicsBattery_mk]
    unfold capacity_design_c
    rw [hd]
    norm_num

end BatterySim

namespace BatterySim

/-- C10 counterexample: the explicit-Euler thermal update is not
positivity-preserving.  At zero current, ambient at absolute zero
(`temp_env_c = -273.15`) and `dt = 2000 s`, a single `step` from the
default battery drives the cell temperature below 0 K. -/
theorem temperature_positive_cex :
    (step defaultBattery 0 2000 (-273.15)).batt.temp_k < 0 := by
  have h : (step defaultBattery 0 2000 (-273.15)).batt.temp_k =
      defaultBattery.temp_k +
        ((0:ℝ) ^ 2 * (defaultBattery.R_base * r_temp_factor defaultBattery.temp_k +
            R_sei_next defaultBattery 2000) +
          0 * defaultBattery.temp_k *
            entropicCoefficient ((step defaultBattery 0 2000 (-273.15)).soc) -
          h_conv * A_cool * (defaultBattery.temp_k - (-273.15 + 273.15))) /
          (mass * Cp) * 2000 := rfl
  rw [h]
  have hT : defaultBattery.temp_k = 25.0 + 273.15 := rfl
  rw [hT]
  unfold h_conv A_cool mass Cp
  norm_num

lemma L_sei_next_nonneg (b : Battery) (dt : ℝ) (hL : 0 ≤ b.L_sei) (hdt : 0 ≤ dt) :
    0 ≤ L_sei_next b dt := by
  unfold L_sei_next
  have := mul_nonneg (clip_ge_lo (dL_dt b) 0 1e-10) hdt
  linarith

lemma R_sei_next_nonneg (b : Battery) (dt : ℝ) (hL : 0 ≤ b.L_sei) (hdt : 0 ≤ dt) :
    0 ≤ R_sei_next b dt := by
  unfold R_sei_next
  have hk : (0:ℝ) < kappa_sei * A_surf := by unfold kappa_sei A_surf; norm_num
  exact div_nonneg (L_sei_next_nonneg b dt hL hdt) hk.le

/-- C10 amended: the Euler thermal update keeps `temp_k > 0` only under
additional hypotheses the claim omits: the pre-step temperature is
positive, the ambient temperature is not below absolute zero, the
resistances are non-negative, and `dt` is small relative to the thermal
inertia `mass * Cp` and the worst-case entropic heat `0.05 * |current|`
plus the convective coefficient `h_conv * A_cool`. -/
theorem temperature_positive_amended (b : Battery) (current_a dt temp_env_c : ℝ)
    (hT : 0 < b.temp_k) (henv : 0 ≤ temp_env_c + 273.15)
    (hR : 0 ≤ b.R_base) (hL : 0 ≤ b.L_sei) (hdt : 0 ≤ dt)
    (hsmall : (0.05 * |current_a| + h_conv * A_cool) * dt < mass * Cp) :
    0 < (step b current_a dt temp_env_c).batt.temp_k := by
  set soc := (step b current_a dt temp_env_c).soc with hsoc
  have h : (step b current_a dt temp_env_c).batt.temp_k =
      b.temp_k +
        (current_a ^ 2 * (b.R_base * r_temp_factor b.temp_k + R_sei_next b dt) +
          current_a * b.temp_k * entropicCoefficient soc -
          h_conv * A_cool * (b.temp_k - (temp_env_c + 273.15))) /
          (mass * Cp) * dt := rfl
  rw [h]
  have hrt : 0 ≤ b.R_base * r_temp_factor b.temp_k + R_sei_next b dt := by
    have h1 := (Real.exp_pos (1000 * (1.0 / b.temp_k - 1.0 / T_ref))).le
    have h2 := R_sei_next_nonneg b dt hL hdt
    unfold r_temp_factor
    nlinarith
  have hirr : 0 ≤ current_a ^ 2 * (b.R_base * r_temp_factor b.temp_k + R_sei_next b dt) :=
    mul_nonneg (sq_nonneg _) hrt
  have hrev : -(0.05 * (|current_a| * b.temp_k)) ≤
      current_a * b.temp_k * entropicCoefficient soc := by
    have habs : |current_a * b.temp_k * entropicCoefficient soc| ≤
        |current_a| * b.temp_k * 0.05 := by
      rw [abs_mul, abs_mul, abs_of_pos hT]
      have h1 : 0 ≤ |current_a| * b.temp_k := mul_nonneg (abs_nonneg _) hT.le
      exact mul_le_mul_of_nonneg_left (abs_entropic_le soc) h1 |>.trans_eq (by ring) |>.trans (le_refl _)
    have := neg_abs_le (current_a * b.temp_k * entropicCoefficient soc)
    nlinarith
  have hdiss : h_conv * A_cool * (b.temp_k - (temp_env_c + 273.15)) ≤
      h_conv * A_cool * b.temp_k := by
    unfold h_conv A_cool
    nlinarith
  have hmCp : (0:ℝ) < mass * Cp := by unfold mass Cp; norm_num
  have hnum : -((0.05 * |current_a| + h_conv * A_cool) * b.temp_k) ≤
      current_a ^ 2 * (b.R_base * r_temp_factor b.temp_k + R_sei_next b dt) +
        current_a * b.temp_k * entropicCoefficient soc -
        h_conv * A_cool * (b.temp_k - (temp_env_c + 273.15)) := by
    nlinarith
  have hratio : -((0.05 * |current_a| + h_conv * A_cool) * b.temp_k) / (mass * Cp) * dt ≤
      (current_a ^ 2 * (b.R_base * r_temp_factor b.temp_k + R_sei_next b dt) +
        current_a * b.temp_k * entropicCoefficient soc -
        h_conv * A_cool * (b.temp_k - (temp_env_c + 273.15))) / (mass * Cp) * dt := by
    apply mul_le_mul_of_nonneg_right _ hdt
    exact div_le_div_of_nonneg_right hnum hmCp.le
  have hfin : 0 < b.temp_k + -((0.05 * |current_a| + h_conv * A_cool) * b.temp_k) / (mass * Cp) * dt := by
    rw [div_mul_eq_mul_div, neg_mul, neg_div, ← sub_eq_add_neg, sub_pos, div_lt_iff hmCp]
    have ha : 0 ≤ 0.05 * |current_a| + h_conv * A_cool := by
      have := abs_nonneg current_a
      unfold h_conv A_cool
      nlinarith
    nlinarith
  linarith

/-- Concrete instance of `temperature_positive_amended` at the default
battery, 1 A discharge, `dt = 1 s`, 25 °C ambient. -/
theorem temperature_positive_amended_witness :
    0 < (step defaultBattery 1 1 25).batt.temp_k := by
  have hT : (0:ℝ) < defaultBattery.temp_k := by
    norm_num [defaultBattery, PhysicsBattery_mk]
  have hR : (0:ℝ) ≤ defaultBattery.R_base := by
    norm_num [defaultBattery, PhysicsBattery_mk]
  have hL : (0:ℝ) ≤ defaultBattery.L_sei := by
    norm_num [defaultBattery, PhysicsBattery_mk]
  have hsmall : (0.05 * |(1:ℝ)| + h_conv * A_cool) * 1 < mass * Cp := by
    unfold h_conv A_cool mass Cp
    norm_num
  exact temperature_positive_amended defaultBattery 1 1 25 hT (by norm_num) hR hL
    (by norm_num) hsmall

end BatterySim

namespace BatterySim

/-! ### Named components of `step`, with definitional bridges -/

/-- The pair of tank levels after the ten KiBaM sub-steps of `step`. -/
noncomputable def stepCharge (b : Battery) (current_a dt : ℝ) : ℝ × ℝ :=
  (kibamSubstep (capacityActual b) b.temp_k current_a (dt / 10))^[10] (b.y1, b.y2)

/-- `r_total` as computed inside `step` (with the freshly updated SEI
resistance). -/
noncomputable def r_total_step (b : Battery) (dt : ℝ) : ℝ :=
  b.R_base * r_temp_factor b.temp_k + R_sei_next b dt

/-- The pre-floor terminal voltage `volt_term` of `step`. -/
noncomputable def volt0_step (b : Battery) (current_a dt : ℝ) : ℝ :=
  ocvOf b.design_capacity_ah
      (b.design_capacity_ah - ((stepCharge b current_a dt).1 + (stepCharge b current_a dt).2) / 3600.0) -
    current_a * r_total_step b dt

lemma step_y1_eq (b : Battery) (current_a dt temp_env_c : ℝ) :
    (step b current_a dt temp_env_c).batt.y1 = (stepCharge b current_a dt).1 := rfl

lemma step_y2_eq (b : Battery) (current_a dt temp_env_c : ℝ) :
    (step b current_a dt temp_env_c).batt.y2 = (stepCharge b current_a dt).2 := rfl

lemma step_volt_eq (b : Battery) (current_a dt temp_env_c : ℝ) :
    (step b current_a dt temp_env_c).volt =
      if volt0_step b current_a dt < 0.1 then 0.1 else volt0_step b current_a dt := rfl

/-- The voltage returned by `step` is never below the 0.1 V floor
(helper form shared by several claims). -/
lemma step_volt_ge_floor (b : Battery) (current_a dt temp_env_c : ℝ) :
    0.1 ≤ (step b current_a dt temp_env_c).volt := by
  rw [step_volt_eq]
  split_ifs with h
  · norm_num
  · exact not_lt.mp h

/-- Discharge with no clamp firing: the total charge after `step` is the
initial total minus `current * dt`. -/
lemma step_sum_of_discharge (b : Battery) (current_a dt temp_env_c : ℝ)
    (hIdt : 0 ≤ current_a * (dt / 10))
    (hhi : b.y1 + b.y2 ≤ capacityActual b)
    (hlo : 0 ≤ b.y1 + b.y2 - current_a * dt) :
    (step b current_a dt temp_env_c).batt.y1 +
      (step b current_a dt temp_env_c).batt.y2 = b.y1 + b.y2 - current_a * dt := by
  rw [step_y1_eq, step_y2_eq]
  have h10 : current_a * (dt / 10) * (10:ℕ) = current_a * dt := by push_cast; ring
  have h := kibam_iterate_sum_of_discharge (capacityActual b) b.temp_k current_a
    (dt / 10) (b.y1, b.y2) hIdt hhi 10 (by rw [h10]; exact hlo)
  rw [h10] at h
  exact h

lemma r_total_step_nonneg (b : Battery) (dt : ℝ)
    (hR : 0 ≤ b.R_base) (hL : 0 ≤ b.L_sei) (hdt : 0 ≤ dt) :
    0 ≤ r_total_step b dt := by
  unfold r_total_step
  have h1 := (Real.exp_pos (1000 * (1.0 / b.temp_k - 1.0 / T_ref))).le
  have h2 := R_sei_next_nonneg b dt hL hdt
  unfold r_temp_factor
  nlinarith

/-- The Shepherd OCV is bounded by `E0 + A_vol` whenever the discharged
charge is non-negative (so the exponential is at most one) and the
design capacity is non-negative (so the polarization term only lowers
the OCV). -/
lemma ocvOf_le (design_ah q_discharged_ah : ℝ) (hd : 0 ≤ design_ah)
    (hq : 0 ≤ q_discharged_ah) :
    ocvOf design_ah q_discharged_ah ≤ E0 + A_vol := by
  unfold ocvOf
  have hexp : Real.exp (-B_vol * q_discharged_ah) ≤ 1 := by
    have h0 : -B_vol * q_discharged_ah ≤ 0 := by
      unfold B_vol
      nlinarith
    calc Real.exp (-B_vol * q_discharged_ah) ≤ Real.exp 0 := Real.exp_le_exp.mpr h0
      _ = 1 := Real.exp_zero
  have hmax : (0:ℝ) < max 1e-4 (design_ah - q_discharged_ah) :=
    lt_of_lt_of_le (by norm_num) (le_max_left _ _)
  have hpol : 0 ≤ K * (design_ah / max 1e-4 (design_ah - q_discharged_ah)) := by
    have := div_nonneg hd hmax.le
    unfold K
    nlinarith
  have hA : (0:ℝ) < A_vol := by unfold A_vol; norm_num
  nlinarith

/-- Upper bound on the voltage returned by `step` under discharge with
non-negative resistances. -/
lemma step_volt_le (b : Battery) (current_a dt temp_env_c : ℝ)
    (hI : 0 ≤ current_a) (hR : 0 ≤ b.R_base) (hL : 0 ≤ b.L_sei) (hdt : 0 ≤ dt)
    (hdes : 0 ≤ b.design_capacity_ah)
    (hq : (stepCharge b current_a dt).1 + (stepCharge b current_a dt).2 ≤
      b.design_capacity_ah * 3600.0) :
    (step b current_a dt temp_env_c).volt ≤ E0 + A_vol := by
  rw [step_volt_eq]
  have hq' : 0 ≤ b.design_capacity_ah -
      ((stepCharge b current_a dt).1 + (stepCharge b current_a dt).2) / 3600.0 := by
    have h36 : (0:ℝ) < 3600.0 := by norm_num
    rw [sub_nonneg, div_le_iff h36]
    linarith
  have hocv := ocvOf_le b.design_capacity_ah
    (b.design_capacity_ah - ((stepCharge b current_a dt).1 + (stepCharge b current_a dt).2) / 3600.0)
    hdes hq'
  have hIr : 0 ≤ current_a * r_total_step b dt :=
    mul_nonneg hI (r_total_step_nonneg b dt hR hL hdt)
  split_ifs with h
  · unfold E0 A_vol
    norm_num
  · unfold volt0_step
    unfold volt0_step at h
    linarith

end BatterySim

namespace BatterySim

/-- Rule A of `AdaptiveBMS.update` as an equation: when `|current| > 0.1`
and the post-step total charge is positive, both tanks are scaled by
`clamp(total + gain*err*dt*capacity_design_c, 0, capacity_design_c) / total`. -/
lemma update_ruleA_y (s : BMS) (current dt temp_env_c v_meas : ℝ)
    (hA : 0.1 < |current|)
    (hpos : 0 < (step s.battery current dt temp_env_c).batt.y1 +
        (step s.battery current dt temp_env_c).batt.y2) :
    (update s current dt temp_env_c v_meas).1.battery.y1 =
      (step s.battery current dt temp_env_c).batt.y1 *
        (max 0 (min ((step s.battery current dt temp_env_c).batt.y1 +
              (step s.battery current dt temp_env_c).batt.y2 +
              s.gain_soc * (v_meas - (step s.battery current dt temp_env_c).volt) * dt *
                capacity_design_c (step s.battery current dt temp_env_c).batt)
            (capacity_design_c (step s.battery current dt temp_env_c).batt)) /
          ((step s.battery current dt temp_env_c).batt.y1 +
            (step s.battery current dt temp_env_c).batt.y2)) ∧
    (update s current dt temp_env_c v_meas).1.battery.y2 =
      (step s.battery current dt temp_env_c).batt.y2 *
        (max 0 (min ((step s.battery current dt temp_env_c).batt.y1 +
              (step s.battery current dt temp_env_c).batt.y2 +
              s.gain_soc * (v_meas - (step s.battery current dt temp_env_c).volt) * dt *
                capacity_design_c (step s.battery current dt temp_env_c).batt)
            (capacity_design_c (step s.battery current dt temp_env_c).batt)) /
          ((step s.battery current dt temp_env_c).batt.y1 +
            (step s.battery current dt temp_env_c).batt.y2)) := by
  simp only [update, if_pos hA, if_pos hpos]
  split_ifs with hB <;> exact ⟨rfl, rfl⟩

/-- C7 amended: Rule A converts the SOC correction into a charge delta
via the full **design** capacity `capacity_design_c` (not the
aging-reduced usable capacity), clamps the total to
`[0, capacity_design_c]` (not `[0, usable]`), and redistributes by
uniform scaling (preserving the tank ratio), guarded by
`total_charge_old > 0`. -/
theorem ruleA_design_capacity_redistribution (s : BMS)
    (current dt temp_env_c v_meas : ℝ) (hA : 0.1 < |current|)
    (hpos : 0 < (step s.battery current dt temp_env_c).batt.y1 +
        (step s.battery current dt temp_env_c).batt.y2) :
    (update s current dt temp_env_c v_meas).1.battery.y1 =
      (step s.battery current dt temp_env_c).batt.y1 *
        (max 0 (min ((step s.battery current dt temp_env_c).batt.y1 +
              (step s.battery current dt temp_env_c).batt.y2 +
              s.gain_soc * (v_meas - (step s.battery current dt temp_env_c).volt) * dt *
                capacity_design_c (step s.battery current dt temp_env_c).batt)
            (capacity_design_c (step s.battery current dt temp_env_c).batt)) /
          ((step s.battery current dt temp_env_c).batt.y1 +
            (step s.battery current dt temp_env_c).batt.y2)) ∧
    (update s current dt temp_env_c v_meas).1.battery.y2 =
      (step s.battery current dt temp_env_c).batt.y2 *
        (max 0 (min ((step s.battery current dt temp_env_c).batt.y1 +
              (step s.battery current dt temp_env_c).batt.y2 +
              s.gain_soc * (v_meas - (step s.battery current dt temp_env_c).volt) * dt *
                capacity_design_c (step s.battery current dt temp_env_c).batt)
            (capacity_design_c (step s.battery current dt temp_env_c).batt)) /
          ((step s.battery current dt temp_env_c).batt.y1 +
            (step s.battery current dt temp_env_c).batt.y2)) ∧
    capacity_design_c (step s.battery current dt temp_env_c).batt =
      capacity_design_c s.battery :=
  ⟨(update_ruleA_y s current dt temp_env_c v_meas hA hpos).1,
   (update_ruleA_y s current dt temp_env_c v_meas hA hpos).2, rfl⟩

lemma bmsDefault_sum_le_cap :
    bmsDefault.battery.y1 + bmsDefault.battery.y2 ≤
      capacityActual bmsDefault.battery := by
  rw [bmsDefault_charge_sum]
  refine le_trans ?_ (le_max_left _ _)
  have hq : bmsDefault.battery.q_loss_acc = 0 := by
    norm_num [bmsDefault, AdaptiveBMS_mk, defaultBattery, PhysicsBattery_mk]
  have hd : bmsDefault.battery.design_capacity_ah = 2.02706564 := by
    norm_num [bmsDefault, AdaptiveBMS_mk, defaultBattery, PhysicsBattery_mk]
  unfold capacity_design_c
  rw [hq, hd]
  norm_num

lemma step_bmsDefault_small_discharge_sum :
    (step bmsDefault.battery 0.2 1 25).batt.y1 +
      (step bmsDefault.battery 0.2 1 25).batt.y2 =
      bmsDefault.battery.y1 + bmsDefault.battery.y2 - 0.2 * 1 := by
  refine step_sum_of_discharge bmsDefault.battery 0.2 1 25 (by norm_num)
    bmsDefault_sum_le_cap ?_
  rw [bmsDefault_charge_sum]
  norm_num

/-- Concrete instance of `ruleA_design_capacity_redistribution` at 0.2 A
discharge, unit time step, measured voltage 10 V. -/
theorem ruleA_design_capacity_redistribution_witness :
    (0.1 < |(0.2:ℝ)|) ∧
    (0 < (step bmsDefault.battery 0.2 1 25).batt.y1 +
        (step bmsDefault.battery 0.2 1 25).batt.y2) ∧
    (update bmsDefault 0.2 1 25 10).1.battery.y1 =
      (step bmsDefault.battery 0.2 1 25).batt.y1 *
        (max 0 (min ((step bmsDefault.battery 0.2 1 25).batt.y1 +
              (step bmsDefault.battery 0.2 1 25).batt.y2 +
              bmsDefault.gain_soc * (10 - (step bmsDefault.battery 0.2 1 25).volt) * 1 *
                capacity_design_c (step bmsDefault.battery 0.2 1 25).batt)
            (capacity_design_c (step bmsDefault.battery 0.2 1 25).batt)) /
          ((step bmsDefault.battery 0.2 1 25).batt.y1 +
            (step bmsDefault.battery 0.2 1 25).batt.y2)) := by
  have hpos : 0 < (step bmsDefault.battery 0.2 1 25).batt.y1 +
      (step bmsDefault.battery 0.2 1 25).batt.y2 := by
    rw [step_bmsDefault_small_discharge_sum, bmsDefault_charge_sum]
    norm_num
  have habs : (0.1:ℝ) < |(0.2:ℝ)| := by
    rw [abs_of_pos] <;> norm_num
  exact ⟨habs, hpos,
    (ruleA_design_capacity_redistribution bmsDefault 0.2 1 25 10 habs hpos).1⟩

end BatterySim

namespace BatterySim

/-- A battery with 3600 C (1 Ah) of permanent capacity loss and the two
tanks holding 1825 C each, wrapped in an `AdaptiveBMS`. -/
noncomputable def agedBattery : Battery :=
  { defaultBattery with y1 := 1825, y2 := 1825, q_loss_acc := 3600 }

noncomputable def bmsAged : BMS := AdaptiveBMS_mk agedBattery 5e-5 0.005

lemma bmsAged_y1 : bmsAged.battery.y1 = 1825 := rfl
lemma bmsAged_y2 : bmsAged.battery.y2 = 1825 := rfl
lemma bmsAged_qloss : bmsAged.battery.q_loss_acc = 3600 := rfl
lemma bmsAged_gain : bmsAged.gain_soc = 5e-3 := rfl

lemma bmsAged_design : bmsAged.battery.design_capacity_ah = 2.02706564 := by
  norm_num [bmsAged, AdaptiveBMS_mk, agedBattery, defaultBattery, PhysicsBattery_mk]

lemma bmsAged_R_base : bmsAged.battery.R_base = 0.20222941 := by
  norm_num [bmsAged, AdaptiveBMS_mk, agedBattery, defaultBattery, PhysicsBattery_mk]

lemma bmsAged_L_sei : bmsAged.battery.L_sei = 5e-9 := by
  norm_num [bmsAged, AdaptiveBMS_mk, agedBattery, defaultBattery, PhysicsBattery_mk]

lemma step_bmsAged_sum :
    (step bmsAged.battery 0.2 1 25).batt.y1 +
      (step bmsAged.battery 0.2 1 25).batt.y2 = 3650 - 0.2 := by
  have hhi : bmsAged.battery.y1 + bmsAged.battery.y2 ≤
      capacityActual bmsAged.battery := by
    rw [bmsAged_y1, bmsAged_y2]
    refine le_trans ?_ (le_max_left _ _)
    unfold capacity_design_c
    rw [bmsAged_design, bmsAged_qloss]
    norm_num
  have h := step_sum_of_discharge bmsAged.battery 0.2 1 25 (by norm_num) hhi
    (by rw [bmsAged_y1, bmsAged_y2]; norm_num)
  rw [bmsAged_y1, bmsAged_y2] at h
  rw [h]
  norm_num

/-- C7 counterexample: on the aged battery (usable capacity
`3697.436304 C`, design capacity `7297.436304 C`), one Rule A tick at
0.2 A with a deliberately high measured voltage leaves a total charge
strictly above the usable (aging-reduced) capacity — the claimed clamp
to `[0, usableCapacityCoulombs]` does not exist; only the design-capacity
clamp does. -/
theorem ruleA_usable_capacity_cex :
    capacity_design_c bmsAged.battery - bmsAged.battery.q_loss_acc <
      (update bmsAged 0.2 1 25 10).1.battery.y1 +
        (update bmsAged 0.2 1 25 10).1.battery.y2 ∧
    (update bmsAged 0.2 1 25 10).1.battery.y1 +
        (update bmsAged 0.2 1 25 10).1.battery.y2 ≤
      capacity_design_c bmsAged.battery := by
  have habs : (0.1:ℝ) < |(0.2:ℝ)| := by
    rw [abs_of_pos] <;> norm_num
  have hpos : 0 < (step bmsAged.battery 0.2 1 25).batt.y1 +
      (step bmsAged.battery 0.2 1 25).batt.y2 := by
    rw [step_bmsAged_sum]; norm_num
  have hcapdes : capacity_design_c bmsAged.battery = 2.02706564 * 3600.0 := by
    unfold capacity_design_c
    rw [bmsAged_design]
  have hcapdes' : capacity_design_c (step bmsAged.battery 0.2 1 25).batt =
      capacity_design_c bmsAged.battery := rfl
  -- voltage bounds
  have hv1 : 0.1 ≤ (step bmsAged.battery 0.2 1 25).volt :=
    step_volt_ge_floor bmsAged.battery 0.2 1 25
  have hv2 : (step bmsAged.battery 0.2 1 25).volt ≤ E0 + A_vol := by
    refine step_volt_le bmsAged.battery 0.2 1 25 (by norm_num) ?_ ?_ (by norm_num)
      ?_ ?_
    · rw [bmsAged_R_base]; norm_num
    · rw [bmsAged_L_sei]; norm_num
    · rw [bmsAged_design]; norm_num
    · rw [← step_y1_eq bmsAged.battery 0.2 1 25, ← step_y2_eq bmsAged.battery 0.2 1 25,
        step_bmsAged_sum, bmsAged_design]
      norm_num
  have hEA : E0 + A_vol = 4.56432422 := by unfold E0 A_vol; norm_num
  rw [hEA] at hv2
  -- the post-update total equals the clamped new total
  obtain ⟨h1, h2⟩ := update_ruleA_y bmsAged 0.2 1 25 10 habs hpos
  set v := (step bmsAged.battery 0.2 1 25).volt with hvdef
  set y1s := (step bmsAged.battery 0.2 1 25).batt.y1 with hy1def
  set y2s := (step bmsAged.battery 0.2 1 25).batt.y2 with hy2def
  have hso : y1s + y2s = 3649.8 := by rw [hy1def, hy2def, step_bmsAged_sum]; norm_num
  have hso0 : y1s + y2s ≠ 0 := by rw [hso]; norm_num
  have hsum_upd : (update bmsAged 0.2 1 25 10).1.battery.y1 +
      (update bmsAged 0.2 1 25 10).1.battery.y2 =
      max 0 (min (y1s + y2s + bmsAged.gain_soc * (10 - v) * 1 *
          capacity_design_c (step bmsAged.battery 0.2 1 25).batt)
        (capacity_design_c (step bmsAged.battery 0.2 1 25).batt)) := by
    rw [h1, h2, ← add_mul, mul_div_assoc']
    rw [mul_comm (y1s + y2s), mul_div_assoc]
    rw [div_self hso0, mul_one]
  rw [hsum_upd, hcapdes', hcapdes, bmsAged_gain, hso]
  have hTN : 3649.8 + 5e-3 * (10 - v) * 1 * (2.02706564 * 3600.0) =
      3649.8 + 36.48718152 * (10 - v) := by ring
  rw [hTN]
  have hlow : 3697.436304 < 3649.8 + 36.48718152 * (10 - v) := by nlinarith
  have hhigh : 3649.8 + 36.48718152 * (10 - v) ≤ 2.02706564 * 3600.0 := by nlinarith
  have hnn : (0:ℝ) ≤ 3649.8 + 36.48718152 * (10 - v) := by nlinarith
  rw [min_eq_left hhigh, max_eq_right hnn]
  constructor
  · rw [bmsAged_qloss]
    nlinarith
  · exact hhigh

end BatterySim

namespace BatterySim

/-! ### Analysis of the calibration voltage model -/

lemma clip_eq_self {s : ℝ} (h1 : (0.01:ℝ) ≤ s) (h2 : s ≤ 0.99) :
    clip s 0.01 0.99 = s := by
  unfold clip
  rw [min_eq_left h2, max_eq_right h1]

lemma estVoltage_def (b : Battery) (current_a s : ℝ) :
    estVoltage b current_a s =
      E0 - K * (b.design_capacity_ah / max 1e-3 (b.design_capacity_ah -
          (capacity_design_c b - b.q_loss_acc) * (1 - clip s 0.01 0.99) / 3600.0)) +
        A_vol * Real.exp (-B_vol *
          ((capacity_design_c b - b.q_loss_acc) * (1 - clip s 0.01 0.99) / 3600.0)) -
        current_a * (b.R_base * r_temp_factor b.temp_k + b.R_sei) := rfl

lemma estVoltage_continuous (b : Battery) (current_a : ℝ) :
    Continuous (fun s => estVoltage b current_a s) := by
  have hclip : Continuous fun s : ℝ => clip s 0.01 0.99 := by
    unfold clip
    exact continuous_const.max (continuous_id.min continuous_const)
  have hqd : Continuous fun s : ℝ =>
      (capacity_design_c b - b.q_loss_acc) * (1 - clip s 0.01 0.99) / 3600.0 :=
    (continuous_const.mul (continuous_const.sub hclip)).div_const _
  have hden : Continuous fun s : ℝ => max 1e-3 (b.design_capacity_ah -
      (capacity_design_c b - b.q_loss_acc) * (1 - clip s 0.01 0.99) / 3600.0) :=
    continuous_const.max (continuous_const.sub hqd)
  have hden_ne : ∀ s : ℝ, max 1e-3 (b.design_capacity_ah -
      (capacity_design_c b - b.q_loss_acc) * (1 - clip s 0.01 0.99) / 3600.0) ≠ 0 :=
    fun s => ne_of_gt (lt_of_lt_of_le (by norm_num) (le_max_left _ _))
  have hpol : Continuous fun s : ℝ => K * (b.design_capacity_ah / max 1e-3
      (b.design_capacity_ah -
        (capacity_design_c b - b.q_loss_acc) * (1 - clip s 0.01 0.99) / 3600.0)) :=
    continuous_const.mul (continuous_const.div hden hden_ne)
  have hexp : Continuous fun s : ℝ => A_vol * Real.exp (-B_vol *
      ((capacity_design_c b - b.q_loss_acc) * (1 - clip s 0.01 0.99) / 3600.0)) :=
    continuous_const.mul (Real.continuous_exp.comp (continuous_const.mul hqd))
  have h : Continuous fun s : ℝ =>
      E0 - K * (b.design_capacity_ah / max 1e-3 (b.design_capacity_ah -
          (capacity_design_c b - b.q_loss_acc) * (1 - clip s 0.01 0.99) / 3600.0)) +
        A_vol * Real.exp (-B_vol *
          ((capacity_design_c b - b.q_loss_acc) * (1 - clip s 0.01 0.99) / 3600.0)) -
        current_a * (b.R_base * r_temp_factor b.temp_k + b.R_sei) :=
    ((continuous_const.sub hpol).add hexp).sub continuous_const
  convert h using 2

/-- C5: when the observed voltage is unachievable — the calibration
error function has no zero anywhere on the bracket `[0.01, 0.99]` —
voltage-mode calibration is a soft no-op: `brentq` raises, the exception
is caught, and the battery state (in particular `y1`, `y2`) is returned
entirely unchanged. -/
theorem calibrate_unreachable_noop (b : Battery) (observed_v current_a : ℝ)
    (h : ∀ s ∈ Set.Icc (0.01:ℝ) 0.99, voltage_error b current_a observed_v s ≠ 0) :
    calibrate_voltage b observed_v current_a = b := by
  unfold calibrate_voltage
  have hcont : ContinuousOn (voltage_error b current_a observed_v)
      (Set.Icc (0.01:ℝ) 0.99) := by
    have : Continuous (voltage_error b current_a observed_v) :=
      (estVoltage_continuous b current_a).sub continuous_const
    exact this.continuousOn
  have hne : brentqModel (voltage_error b current_a observed_v) 0.01 0.99 = none := by
    unfold brentqModel
    have hfa := h 0.01 (by constructor <;> norm_num)
    have hfb := h 0.99 (by constructor <;> norm_num)
    by_cases hsign : 0 < voltage_error b current_a observed_v 0.01 *
        voltage_error b current_a observed_v 0.99
    · rw [if_pos hsign]
    · exfalso
      have hprod : voltage_error b current_a observed_v 0.01 *
          voltage_error b current_a observed_v 0.99 < 0 :=
        lt_of_le_of_ne (not_lt.mp hsign) (mul_ne_zero hfa hfb)
      rcases mul_neg_iff.mp hprod with ⟨hpa, hnb⟩ | ⟨hna, hpb⟩
      · obtain ⟨x, hx, hfx⟩ := intermediate_value_Icc' (by norm_num) hcont
          (Set.mem_Icc.mpr ⟨hnb.le, hpa.le⟩)
        exact h x hx hfx
      · obtain ⟨x, hx, hfx⟩ := intermediate_value_Icc (by norm_num) hcont
          (Set.mem_Icc.mpr ⟨hna.le, hpb.le⟩)
        exact h x hx hfx
  rw [hne]

lemma estVoltage_zero_current_le (b : Battery) (s : ℝ)
    (hdes : 0 ≤ b.design_capacity_ah)
    (hcapA : 0 ≤ capacity_design_c b - b.q_loss_acc) :
    estVoltage b 0 s ≤ E0 + A_vol := by
  rw [estVoltage_def]
  have ht1 : clip s 0.01 0.99 ≤ 0.99 := clip_le_hi _ _ _ (by norm_num)
  have hqd : 0 ≤ (capacity_design_c b - b.q_loss_acc) * (1 - clip s 0.01 0.99) / 3600.0 :=
    div_nonneg (mul_nonneg hcapA (by linarith)) (by norm_num)
  have hexp : Real.exp (-B_vol *
      ((capacity_design_c b - b.q_loss_acc) * (1 - clip s 0.01 0.99) / 3600.0)) ≤ 1 := by
    have h0 : -B_vol * ((capacity_design_c b - b.q_loss_acc) *
        (1 - clip s 0.01 0.99) / 3600.0) ≤ 0 := by
      unfold B_vol
      nlinarith
    calc Real.exp _ ≤ Real.exp 0 := Real.exp_le_exp.mpr h0
      _ = 1 := Real.exp_zero
  have hmax : (0:ℝ) < max 1e-3 (b.design_capacity_ah -
      (capacity_design_c b - b.q_loss_acc) * (1 - clip s 0.01 0.99) / 3600.0) :=
    lt_of_lt_of_le (by norm_num) (le_max_left _ _)
  have hpol : 0 ≤ K * (b.design_capacity_ah / max 1e-3 (b.design_capacity_ah -
      (capacity_design_c b - b.q_loss_acc) * (1 - clip s 0.01 0.99) / 3600.0)) := by
    have := div_nonneg hdes hmax.le
    unfold K
    nlinarith
  have hA : (0:ℝ) < A_vol := by unfold A_vol; norm_num
  have h2 : A_vol * Real.exp (-B_vol *
      ((capacity_design_c b - b.q_loss_acc) * (1 - clip s 0.01 0.99) / 3600.0)) ≤
      A_vol * 1 := mul_le_mul_of_nonneg_left hexp hA.le
  rw [zero_mul, sub_zero]
  linarith

/-- Concrete instance of `calibrate_unreachable_noop`: an observed
voltage of 100 V at zero current is far above the achievable OCV range
of the default battery, and calibration leaves the state unchanged. -/
theorem calibrate_unreachable_noop_witness :
    (∀ s ∈ Set.Icc (0.01:ℝ) 0.99, voltage_error defaultBattery 0 100 s ≠ 0) ∧
    calibrate_voltage defaultBattery 100 0 = defaultBattery := by
  have hdes : 0 ≤ defaultBattery.design_capacity_ah := by
    norm_num [defaultBattery, PhysicsBattery_mk]
  have hcapA : 0 ≤ capacity_design_c defaultBattery - defaultBattery.q_loss_acc := by
    unfold capacity_design_c
    norm_num [defaultBattery, PhysicsBattery_mk]
  have h : ∀ s ∈ Set.Icc (0.01:ℝ) 0.99, voltage_error defaultBattery 0 100 s ≠ 0 := by
    intro s _
    unfold voltage_error
    have hle := estVoltage_zero_current_le defaultBattery s hdes hcapA
    have hEA : E0 + A_vol = 4.56432422 := by unfold E0 A_vol; norm_num
    rw [hEA] at hle
    intro h0
    rw [sub_eq_zero] at h0
    rw [h0] at hle
    norm_num at hle
  exact ⟨h, calibrate_unreachable_noop defaultBattery 100 0 h⟩

end BatterySim

namespace BatterySim

/-- With positive actual capacity and non-negative design capacity, the
calibration voltage model is strictly increasing in the trial SOC over
the bracket. -/
lemma estVoltage_strictMonoOn (b : Battery) (current_a : ℝ)
    (hcapA : 0 < capacity_design_c b - b.q_loss_acc)
    (hdes : 0 ≤ b.design_capacity_ah) :
    StrictMonoOn (fun s => estVoltage b current_a s) (Set.Icc (0.01:ℝ) 0.99) := by
  intro x hx y hy hxy
  obtain ⟨hx1, hx2⟩ := Set.mem_Icc.mp hx
  obtain ⟨hy1, hy2⟩ := Set.mem_Icc.mp hy
  simp only
  rw [estVoltage_def, estVoltage_def, clip_eq_self hx1 hx2, clip_eq_self hy1 hy2]
  have hq : (capacity_design_c b - b.q_loss_acc) * (1 - y) / 3600.0 <
      (capacity_design_c b - b.q_loss_acc) * (1 - x) / 3600.0 := by
    have := mul_lt_mul_of_pos_left (show (1:ℝ) - y < 1 - x by linarith) hcapA
    linarith
  have hmx : (0:ℝ) < max 1e-3 (b.design_capacity_ah -
      (capacity_design_c b - b.q_loss_acc) * (1 - x) / 3600.0) :=
    lt_of_lt_of_le (by norm_num) (le_max_left _ _)
  have hmy : (0:ℝ) < max 1e-3 (b.design_capacity_ah -
      (capacity_design_c b - b.q_loss_acc) * (1 - y) / 3600.0) :=
    lt_of_lt_of_le (by norm_num) (le_max_left _ _)
  have hmle : max 1e-3 (b.design_capacity_ah -
      (capacity_design_c b - b.q_loss_acc) * (1 - x) / 3600.0) ≤
      max 1e-3 (b.design_capacity_ah -
      (capacity_design_c b - b.q_loss_acc) * (1 - y) / 3600.0) :=
    max_le_max le_rfl (by linarith)
  have hdivle : b.design_capacity_ah / max 1e-3 (b.design_capacity_ah -
      (capacity_design_c b - b.q_loss_acc) * (1 - y) / 3600.0) ≤
      b.design_capacity_ah / max 1e-3 (b.design_capacity_ah -
      (capacity_design_c b - b.q_loss_acc) * (1 - x) / 3600.0) := by
    rw [div_le_div_iff hmy hmx]
    nlinarith
  have hpol : K * (b.design_capacity_ah / max 1e-3 (b.design_capacity_ah -
      (capacity_design_c b - b.q_loss_acc) * (1 - y) / 3600.0)) ≤
      K * (b.design_capacity_ah / max 1e-3 (b.design_capacity_ah -
      (capacity_design_c b - b.q_loss_acc) * (1 - x) / 3600.0)) := by
    have hK : (0:ℝ) ≤ K := by unfold K; norm_num
    exact mul_le_mul_of_nonneg_left hdivle hK
  have hexp : A_vol * Real.exp (-B_vol *
      ((capacity_design_c b - b.q_loss_acc) * (1 - x) / 3600.0)) <
      A_vol * Real.exp (-B_vol *
      ((capacity_design_c b - b.q_loss_acc) * (1 - y) / 3600.0)) := by
    have hA : (0:ℝ) < A_vol := by unfold A_vol; norm_num
    have hB : (0:ℝ) < B_vol := by unfold B_vol; norm_num
    have harg : -B_vol * ((capacity_design_c b - b.q_loss_acc) * (1 - x) / 3600.0) <
        -B_vol * ((capacity_design_c b - b.q_loss_acc) * (1 - y) / 3600.0) := by
      nlinarith
    exact mul_lt_mul_of_pos_left (Real.exp_lt_exp.mpr harg) hA
  linarith

/-- C6: round-trip of voltage-mode calibration.  From a state with
positive actual capacity, take any SOC `s0` in the bracket whose model
voltage lies strictly inside the achievable range; computing the model
voltage at `s0` and calibrating against it makes the (idealized) root
finder return exactly `s0` (so within any tolerance, in particular
1e-4), and the recalibrated tanks hold exactly `capacityActual * s0`. -/
theorem calibrate_roundtrip (b : Battery) (current_a s0 : ℝ)
    (hcapA : 0 < capacity_design_c b - b.q_loss_acc)
    (hdes : 0 ≤ b.design_capacity_ah)
    (hs0 : s0 ∈ Set.Icc (0.01:ℝ) 0.99)
    (hlo : estVoltage b current_a 0.01 < estVoltage b current_a s0)
    (hhi : estVoltage b current_a s0 < estVoltage b current_a 0.99) :
    (∃ r, brentqModel (voltage_error b current_a (estVoltage b current_a s0))
        0.01 0.99 = some r ∧ |r - s0| ≤ 1e-4) ∧
    (calibrate_voltage b (estVoltage b current_a s0) current_a).y1 +
      (calibrate_voltage b (estVoltage b current_a s0) current_a).y2 =
      (capacity_design_c b - b.q_loss_acc) * s0 := by
  have hfa : voltage_error b current_a (estVoltage b current_a s0) 0.01 < 0 := by
    unfold voltage_error
    linarith
  have hfb : 0 < voltage_error b current_a (estVoltage b current_a s0) 0.99 := by
    unfold voltage_error
    linarith
  have hnotpos : ¬(0 < voltage_error b current_a (estVoltage b current_a s0) 0.01 *
      voltage_error b current_a (estVoltage b current_a s0) 0.99) := by
    nlinarith
  have hroot : ∃ x ∈ Set.Icc (0.01:ℝ) 0.99,
      voltage_error b current_a (estVoltage b current_a s0) x = 0 :=
    ⟨s0, hs0, by unfold voltage_error; exact sub_self _⟩
  have hb : brentqModel (voltage_error b current_a (estVoltage b current_a s0))
      0.01 0.99 = some hroot.choose := by
    unfold brentqModel
    rw [if_neg hnotpos, dif_pos hroot]
  obtain ⟨hmem, hval⟩ := hroot.choose_spec
  have hr_eq : hroot.choose = s0 := by
    have h1 : estVoltage b current_a hroot.choose = estVoltage b current_a s0 := by
      unfold voltage_error at hval
      linarith [sub_eq_zero.mp hval]
    exact (estVoltage_strictMonoOn b current_a hcapA hdes).injOn hmem hs0 h1
  constructor
  · exact ⟨hroot.choose, hb, by rw [hr_eq, sub_self, abs_zero]; norm_num⟩
  · unfold calibrate_voltage
    rw [hb]
    show (capacity_design_c b - b.q_loss_acc) * hroot.choose * c +
      (capacity_design_c b - b.q_loss_acc) * hroot.choose * (1 - c) =
      (capacity_design_c b - b.q_loss_acc) * s0
    rw [hr_eq]
    ring

/-- Concrete instance of `calibrate_roundtrip` at the default battery,
zero current, `s0 = 0.5`. -/
theorem calibrate_roundtrip_witness :
    (∃ r, brentqModel (voltage_error defaultBattery 0 (estVoltage defaultBattery 0 0.5))
        0.01 0.99 = some r ∧ |r - 0.5| ≤ 1e-4) ∧
    (calibrate_voltage defaultBattery (estVoltage defaultBattery 0 0.5) 0).y1 +
      (calibrate_voltage defaultBattery (estVoltage defaultBattery 0 0.5) 0).y2 =
      (capacity_design_c defaultBattery - defaultBattery.q_loss_acc) * 0.5 := by
  have hcapA : 0 < capacity_design_c defaultBattery - defaultBattery.q_loss_acc := by
    unfold capacity_design_c
    norm_num [defaultBattery, PhysicsBattery_mk]
  have hdes : 0 ≤ defaultBattery.design_capacity_ah := by
    norm_num [defaultBattery, PhysicsBattery_mk]
  have hmono := estVoltage_strictMonoOn defaultBattery 0 hcapA hdes
  have hmem1 : (0.01:ℝ) ∈ Set.Icc (0.01:ℝ) 0.99 := by constructor <;> norm_num
  have hmem5 : (0.5:ℝ) ∈ Set.Icc (0.01:ℝ) 0.99 := by constructor <;> norm_num
  have hmem9 : (0.99:ℝ) ∈ Set.Icc (0.01:ℝ) 0.99 := by constructor <;> norm_num
  exact calibrate_roundtrip defaultBattery 0 0.5 hcapA hdes hmem5
    (hmono hmem1 hmem5 (by norm_num)) (hmono hmem5 hmem9 (by norm_num))

end BatterySim
